import Mathlib

set_option maxRecDepth 100000

/-!
Verification of the nested join-loop composer test harness
(`QueryEngine/LoopControlFlow/JoinLoopTest.cpp`).

The harness enumerates loop-kind/condition combinations, builds a sequence of
`JoinLoop` descriptors per combination, composes them into a nested loop whose
body records the per-level iterator values, JIT-compiles and runs the result.

Shallow embedding conventions:
* An LLVM `i64` value that the harness materialises (loop counters, lookup
  results, upper bounds) is modelled as `Int`; the values exercised by the
  harness are tiny, so unbounded integers coincide with 64-bit semantics.
* An `llvm::Value*` slot in the iterator vector is `Option Int`; the leading
  sentinel slot (a null pointer in the source) is `none`.
* A glog `CHECK`/`LOG(FATAL)` failure aborts the process; a computation that
  can abort returns `Option`/is threaded through `Except`-style results, with
  `none` meaning the fatal path was taken.
-/

/-- Loop-descriptor kinds used by the harness (`JoinLoopKind` from
`JoinLoop.h`): `UpperBound` is a bounded scan over `[0, upper_bound)`,
`Singleton` a single-candidate probe. -/
inductive JoinLoopKind where
  | UpperBound
  | Singleton
deriving DecidableEq

/-- Join types; the harness only exercises `INNER`. -/
inductive JoinType where
  | INNER
deriving DecidableEq

/-- The per-level, per-context domain (`JoinLoopDomain`): a union of an
iteration upper bound and a slot lookup result, zero-initialised
(`JoinLoopDomain domain{0}`) with exactly one field then set by the
descriptor's evaluator. -/
structure JoinLoopDomain where
  upper_bound : Int
  slot_lookup_result : Int
deriving DecidableEq

/-- A loop descriptor (`JoinLoop`): kind, join type, the domain evaluator
(receiving the iterator values accumulated so far), and a label.  The
evaluator returns `none` when one of its glog `CHECK`s fails (process abort).
The two always-null constructor arguments of the source
(`outer_condition_match`, `found_outer_matches`) are omitted: the harness
passes `nullptr` for both. -/
structure JoinLoop where
  kind : JoinLoopKind
  join_type : JoinType
  iteration_domain_codegen : List (Option Int) → Option JoinLoopDomain
  name : String

/-- The `JoinLoopKind::Singleton` descriptor built by `generate_descriptors`
for level `i`: its evaluator checks `CHECK_EQ(i + 1, v.size())` and
`CHECK(!v.front())`, then returns lookup result `99` when the level's
condition bit is set and `-1` (the no-match sentinel) otherwise. -/
def singleton_descriptor (i : Nat) (cond_is_true : Bool) : JoinLoop :=
  { kind := JoinLoopKind.Singleton
    join_type := JoinType.INNER
    iteration_domain_codegen := fun v =>
      if i + 1 = v.length ∧ v.head? = some none then
        some { upper_bound := 0
               slot_lookup_result := if cond_is_true then 99 else -1 }
      else none
    name := "i" ++ toString i }

/-- The `JoinLoopKind::UpperBound` descriptor built by `generate_descriptors`
for level `i`: its evaluator checks `CHECK_EQ(i + 1, v.size())` and
`CHECK(!v.front())`, then returns the configured upper bound. -/
def upper_bound_descriptor (i : Nat) (upper_bound : Int) : JoinLoop :=
  { kind := JoinLoopKind.UpperBound
    join_type := JoinType.INNER
    iteration_domain_codegen := fun v =>
      if i + 1 = v.length ∧ v.head? = some none then
        some { upper_bound := upper_bound, slot_lookup_result := 0 }
      else none
    name := "i" ++ toString i }

/-- The loop of `generate_descriptors`, with the running level index `i` and
condition-bit index `cond_idx` made explicit: level `i` becomes a probe
(`Singleton`) when bit `i` of `mask` is set, consuming the next bit of
`cond_mask`, and a scan (`UpperBound`) with the configured bound otherwise. -/
def generate_descriptors_aux (mask cond_mask : Nat) :
    Nat → Nat → List Int → List JoinLoop
  | _, _, [] => []
  | i, cond_idx, ub :: rest =>
    if mask.testBit i then
      singleton_descriptor i (cond_mask.testBit cond_idx) ::
        generate_descriptors_aux mask cond_mask (i + 1) (cond_idx + 1) rest
    else
      upper_bound_descriptor i ub ::
        generate_descriptors_aux mask cond_mask (i + 1) cond_idx rest

/-- The harness function `generate_descriptors(mask, cond_mask, upper_bounds)`. -/
def generate_descriptors (mask cond_mask : Nat) (upper_bounds : List Int) :
    List JoinLoop :=
  generate_descriptors_aux mask cond_mask 0 0 upper_bounds

/-- Combine per-iteration results, propagating a fatal abort (`none`). -/
def optionFlatten {α : Type} : List (Option (List α)) → Option (List α)
  | [] => some []
  | none :: _ => none
  | some xs :: rest =>
    match optionFlatten rest with
    | none => none
    | some ys => some (xs ++ ys)

/-- Modelled from the spec: `JoinLoop::codegen` (declared in `JoinLoop.h`; its
definition is not part of the available sources).  Per spec §4.1, the composer
consumes the descriptor sequence outermost-first; a `BoundedScan` level
iterates a counter over `[0, evaluate(...).upper_bound)` appending the counter
to the iterator vector, and a `SingleProbe` level evaluates its lookup once,
skips the whole level on the negative no-match sentinel, and otherwise appends
the lookup result as the level's sole iterator value.  The control-flow graph
is abstracted to its observable behaviour: the returned list is the sequence
of iterator vectors passed to the body callback, in execution order, starting
from the accumulated vector `acc` (initially the one-element sentinel vector).
`none` models a fatal `CHECK` failure inside a descriptor's evaluator. -/
def codegen : List JoinLoop → List (Option Int) → Option (List (List (Option Int)))
  | [], acc => some [acc]
  | l :: rest, acc =>
    match l.iteration_domain_codegen acc with
    | none => none
    | some domain =>
      match l.kind with
      | JoinLoopKind.UpperBound =>
        optionFlatten ((List.range domain.upper_bound.toNat).map
          (fun c => codegen rest (acc ++ [some (Int.ofNat c)])))
      | JoinLoopKind.Singleton =>
        if domain.slot_lookup_result < 0 then some []
        else codegen rest (acc ++ [some domain.slot_lookup_result])

/-- Modelled from the spec: the number of control-flow blocks the composer
allocates itself (spec §4.1: a condition and an increment block per
bounded-scan level, one branch-target block per probe level, and — per the
explicit edge case — no blocks at all for an empty descriptor sequence). -/
def codegen_blocks_allocated : List JoinLoop → Nat
  | [] => 0
  | l :: rest =>
    (match l.kind with
     | JoinLoopKind.UpperBound => 2
     | JoinLoopKind.Singleton => 1) + codegen_blocks_allocated rest

/-- One combination of the harness (`create_loop_test_function` +
execution): compose the descriptors for `(mask, cond_mask)` over the given
bounds, starting from the iterator vector holding only the null sentinel, and
return the sequence of iterator vectors passed to the loop body. -/
def loop_test_invocations (mask cond_mask : Nat) (upper_bounds : List Int) :
    Option (List (List (Option Int))) :=
  codegen (generate_descriptors mask cond_mask upper_bounds) [none]

/-- The harness body callback drops the leading sentinel slot and passes the
remaining values to `print_iterators`
(`std::vector<llvm::Value*> args(iterators.begin() + 1, iterators.end())`). -/
def loop_test_body (iterators : List (Option Int)) : List (Option Int) :=
  iterators.drop 1

/-- The lexicographic (outermost-major) Cartesian product
`[0,b_0) × ... × [0,b_(L-1))`, stated from the spec for comparison with the
composed nest's behaviour. -/
def lexProduct : List Int → List (List Int)
  | [] => [[]]
  | b :: rest =>
    (List.range b.toNat).flatMap
      (fun c => (lexProduct rest).map (fun t => (Int.ofNat c) :: t))

/-- Strict lexicographic order on integer tuples (spec's tuple ordering). -/
def lexLt : List Int → List Int → Bool
  | _, [] => false
  | [], _ :: _ => true
  | x :: xs, y :: ys => x < y || (x == y && lexLt xs ys)

/-- The per-level invocation multipliers of the spec: a bounded-scan level
contributes its upper bound, a probe level `1` when matched and `0` when not,
with the level / condition-bit indices threaded exactly as in
`generate_descriptors`. -/
def level_multipliers_aux (mask cond_mask : Nat) : Nat → Nat → List Int → List Nat
  | _, _, [] => []
  | i, ci, b :: rest =>
    if mask.testBit i then
      (if cond_mask.testBit ci then 1 else 0) ::
        level_multipliers_aux mask cond_mask (i + 1) (ci + 1) rest
    else
      b.toNat :: level_multipliers_aux mask cond_mask (i + 1) ci rest

/-- Per-level multipliers for a full descriptor sequence. -/
def level_multipliers (mask cond_mask : Nat) (bounds : List Int) : List Nat :=
  level_multipliers_aux mask cond_mask 0 0 bounds

/-- The iterator-value suffixes (one entry per body invocation, in execution
order) contributed by the levels from index `i` of the generated descriptor
sequence onward: a matched probe contributes the single value `99`, an
unmatched probe kills the whole suffix set, and a scan iterates its counter. -/
def expected_invocations (mask cond_mask : Nat) : Nat → Nat → List Int → List (List (Option Int))
  | _, _, [] => [[]]
  | i, ci, b :: rest =>
    if mask.testBit i then
      if cond_mask.testBit ci then
        (expected_invocations mask cond_mask (i + 1) (ci + 1) rest).map
          (fun t => some 99 :: t)
      else []
    else
      (List.range b.toNat).flatMap
        (fun c => (expected_invocations mask cond_mask (i + 1) ci rest).map
          (fun t => some (Int.ofNat c) :: t))

/-- The builtin popcount used by `main` (`__builtin_popcount`): the number of
set bits of a 32-bit unsigned value. -/
def popcount (n : Nat) : Nat :=
  (List.range 32).countP (fun i => n.testBit i)

/-- The condition-bit index `cond_idx` that `generate_descriptors` has
reached when it processes level `j`: the number of probe levels before it. -/
def cond_index (mask : Nat) (j : Nat) : Nat :=
  (List.range j).countP (fun k => mask.testBit k)

/-- The enumeration of `main`: every `mask` below `2 ^ num_levels` paired with
every `cond_mask` below `2 ^ popcount(mask)`, in loop order. -/
def sweep_pairs (num_levels : Nat) : List (Nat × Nat) :=
  (List.range (2 ^ num_levels)).flatMap
    (fun mask =>
      (List.range (2 ^ popcount mask)).map (fun cond_mask => (mask, cond_mask)))

/-- The sweep of `main`, with the external LLVM verifier abstracted as a
pass/fail oracle per combination.  Combinations run in order; on the first
failing verification `verify_function_ir` dumps the function and calls
`LOG(FATAL)`, which terminates the whole process, so later combinations never
run.  Result: the combinations that executed to completion, and the
combination that aborted the process (if any). -/
def run_sweep (verifies : Nat × Nat → Bool) :
    List (Nat × Nat) → List (Nat × Nat) × Option (Nat × Nat)
  | [] => ([], none)
  | p :: rest =>
    if verifies p then
      ((run_sweep verifies rest).1.cons p, (run_sweep verifies rest).2)
    else ([], some p)

/-- The process exit status of `main`: `some 0` when the double loop runs to
completion (`return 0;`), `none` (no normal exit) when a failing verification
aborts the process via `LOG(FATAL)`. -/
def sweep_exit_code (verifies : Nat × Nat → Bool) (num_levels : Nat) : Option Nat :=
  if (run_sweep verifies (sweep_pairs num_levels)).2 = none then some 0 else none

/-- The per-combination pipeline stages of the harness. -/
inductive HarnessStep where
  | GenerateDescriptors
  | ComposeFunction
  | VerifyIR
  | NativeCompile
  | Execute
deriving DecidableEq

/-- The stages one combination reaches: `create_loop_test_function` generates
the descriptors, composes the function and runs `verify_function_ir` before
returning; `native_codegen` and execution follow only when verification
passed, since a failing `llvm::verifyFunction` triggers `LOG(FATAL)`. -/
def iteration_steps (verify_ok : Bool) : List HarnessStep :=
  if verify_ok then
    [HarnessStep.GenerateDescriptors, HarnessStep.ComposeFunction,
     HarnessStep.VerifyIR, HarnessStep.NativeCompile, HarnessStep.Execute]
  else
    [HarnessStep.GenerateDescriptors, HarnessStep.ComposeFunction,
     HarnessStep.VerifyIR]

/-- The tuple batches printed over a fully successful sweep: one batch per
combination in enumeration order, each the body-invocation sequence with the
sentinel slot dropped by the body callback. -/
def sweep_output (bounds : List Int) : List (List (List (Option Int))) :=
  (sweep_pairs bounds.length).map
    (fun p => ((loop_test_invocations p.1 p.2 bounds).getD []).map loop_test_body)

lemma optionFlatten_map_some {α γ : Type} (g : γ → List α) :
    ∀ l : List γ, optionFlatten (l.map (fun x => some (g x))) = some (l.flatMap g)
  | [] => rfl
  | x :: xs => by
    simp only [List.map_cons, optionFlatten, optionFlatten_map_some g xs,
      List.flatMap_cons]

/-- Unfolding: composing a bounded-scan descriptor whose evaluator checks
pass iterates its counter over the configured bound. -/
lemma codegen_cons_upper (i : Nat) (ub : Int) (rest : List JoinLoop)
    (acc : List (Option Int)) (h : i + 1 = acc.length ∧ acc.head? = some none) :
    codegen (upper_bound_descriptor i ub :: rest) acc
      = optionFlatten ((List.range ub.toNat).map
          (fun c => codegen rest (acc ++ [some (Int.ofNat c)]))) := by
  rw [codegen]
  simp only [upper_bound_descriptor]
  rw [if_pos h]

/-- Unfolding: composing a probe descriptor whose evaluator checks pass
descends with the matched value `99` appended when the condition bit is set,
and skips the whole level otherwise. -/
lemma codegen_cons_singleton (i : Nat) (b : Bool) (rest : List JoinLoop)
    (acc : List (Option Int)) (h : i + 1 = acc.length ∧ acc.head? = some none) :
    codegen (singleton_descriptor i b :: rest) acc
      = if b then codegen rest (acc ++ [some 99]) else some [] := by
  rw [codegen]
  simp only [singleton_descriptor]
  rw [if_pos h]
  cases b <;> rfl

/-- Central characterisation: composing the descriptors generated from level
`i` onward, starting from an accumulated iterator vector of length `i + 1`
whose leading slot is the null sentinel, never hits a fatal `CHECK` and
invokes the body once per expected iterator-value suffix, in order, each time
with the accumulated vector extended by that suffix. -/
lemma codegen_generate_aux (mask cond_mask : Nat) :
    ∀ (bounds : List Int) (i ci : Nat) (acc : List (Option Int)),
      acc.length = i + 1 → acc.head? = some none →
      codegen (generate_descriptors_aux mask cond_mask i ci bounds) acc
        = some ((expected_invocations mask cond_mask i ci bounds).map
            (fun t => acc ++ t)) := by
  intro bounds
  induction bounds with
  | nil =>
    intro i ci acc hlen hhead
    simp [generate_descriptors_aux, codegen, expected_invocations]
  | cons b rest ih =>
    intro i ci acc hlen hhead
    obtain ⟨as, rfl⟩ : ∃ as, acc = none :: as := by
      cases acc with
      | nil => simp at hhead
      | cons a as =>
        simp only [List.head?_cons, Option.some.injEq] at hhead
        exact ⟨as, by rw [hhead]⟩
    by_cases hm : mask.testBit i
    · rw [generate_descriptors_aux, if_pos hm,
        codegen_cons_singleton i _ _ _ ⟨hlen.symm, rfl⟩]
      by_cases hc : cond_mask.testBit ci
      · rw [hc, if_pos rfl]
        rw [ih (i + 1) (ci + 1) (none :: as ++ [some 99])
          (by simpa using hlen) (by simp)]
        rw [expected_invocations, if_pos hm, if_pos hc]
        simp [List.map_map, Function.comp_def, List.append_assoc]
      · rw [Bool.not_eq_true] at hc
        rw [hc, if_neg (by simp)]
        rw [expected_invocations, if_pos hm, if_neg (by simp [hc])]
        simp
    · rw [generate_descriptors_aux, if_neg hm,
        codegen_cons_upper i _ _ _ ⟨hlen.symm, rfl⟩]
      have hmap : (List.range b.toNat).map
            (fun c => codegen (generate_descriptors_aux mask cond_mask (i + 1) ci rest)
              (none :: as ++ [some (Int.ofNat c)]))
          = (List.range b.toNat).map
            (fun c => some ((expected_invocations mask cond_mask (i + 1) ci rest).map
              (fun t => (none :: as ++ [some (Int.ofNat c)]) ++ t))) := by
        apply List.map_congr_left
        intro c _
        rw [ih (i + 1) ci (none :: as ++ [some (Int.ofNat c)])
          (by simpa using hlen) (by simp)]
      rw [hmap, optionFlatten_map_some]
      rw [expected_invocations, if_neg hm]
      simp [List.map_flatMap, List.map_map, Function.comp_def, List.append_assoc]

/-- The number of body invocations contributed by levels `i` onward is the
product of the per-level multipliers. -/
lemma expected_invocations_length (mask cond_mask : Nat) :
    ∀ (bounds : List Int) (i ci : Nat),
      (expected_invocations mask cond_mask i ci bounds).length
        = (level_multipliers_aux mask cond_mask i ci bounds).prod := by
  intro bounds
  induction bounds with
  | nil => intro i ci; simp [expected_invocations, level_multipliers_aux]
  | cons b rest ih =>
    intro i ci
    rw [expected_invocations, level_multipliers_aux]
    by_cases hm : mask.testBit i
    · rw [if_pos hm, if_pos hm]
      by_cases hc : cond_mask.testBit ci
      · simp [hc, ih]
      · simp [hc]
    · rw [if_neg hm, if_neg hm]
      simp only [List.length_flatMap, Function.comp_def, List.length_map, ih,
        List.map_const', List.sum_replicate, List.length_range, smul_eq_mul,
        List.prod_cons]

/-- Every iterator-value suffix contributed by levels `i` onward has one entry
per remaining level. -/
lemma expected_invocations_mem_length (mask cond_mask : Nat) :
    ∀ (bounds : List Int) (i ci : Nat) (t : List (Option Int)),
      t ∈ expected_invocations mask cond_mask i ci bounds →
      t.length = bounds.length := by
  intro bounds
  induction bounds with
  | nil => intro i ci t ht; simp [expected_invocations] at ht; simp [ht]
  | cons b rest ih =>
    intro i ci t ht
    rw [expected_invocations] at ht
    by_cases hm : mask.testBit i
    · rw [if_pos hm] at ht
      by_cases hc : cond_mask.testBit ci
      · rw [if_pos hc] at ht
        simp only [List.mem_map] at ht
        obtain ⟨t', ht', rfl⟩ := ht
        simp [ih (i + 1) (ci + 1) t' ht']
      · rw [if_neg hc] at ht
        simp at ht
    · rw [if_neg hm] at ht
      simp only [List.mem_flatMap, List.mem_map] at ht
      obtain ⟨c, _, t', ht', rfl⟩ := ht
      simp [ih (i + 1) ci t' ht']

/-- With `mask = 0` every level is a bounded scan, and the contributed
suffixes are exactly the lexicographic Cartesian product of the bounds. -/
lemma expected_invocations_mask_zero (cond_mask : Nat) :
    ∀ (bounds : List Int) (i ci : Nat),
      expected_invocations 0 cond_mask i ci bounds
        = (lexProduct bounds).map (List.map some) := by
  intro bounds
  induction bounds with
  | nil => intro i ci; simp [expected_invocations, lexProduct]
  | cons b rest ih =>
    intro i ci
    rw [expected_invocations, if_neg (by simp [Nat.zero_testBit])]
    rw [lexProduct]
    simp [List.map_flatMap, List.map_map, Function.comp_def, ih]

/-- The Cartesian product has one tuple per element of the product of the
(clamped) bounds. -/
lemma lexProduct_length :
    ∀ bounds : List Int,
      (lexProduct bounds).length = (bounds.map Int.toNat).prod := by
  intro bounds
  induction bounds with
  | nil => simp [lexProduct]
  | cons b rest ih =>
    rw [lexProduct]
    simp only [List.length_flatMap, Function.comp_def, List.length_map, ih,
      List.map_const', List.sum_replicate, List.length_range, List.map_cons,
      List.prod_cons, smul_eq_mul]

/-- Membership in the Cartesian product is exactly pointwise membership in
the per-level ranges. -/
lemma lexProduct_mem :
    ∀ (bounds : List Int) (t : List Int),
      t ∈ lexProduct bounds ↔ List.Forall₂ (fun b x => 0 ≤ x ∧ x < b) bounds t := by
  intro bounds
  induction bounds with
  | nil =>
    intro t
    simp [lexProduct, List.forall₂_nil_left_iff]
  | cons b rest ih =>
    intro t
    rw [lexProduct]
    simp only [List.mem_flatMap, List.mem_map, List.mem_range]
    constructor
    · rintro ⟨c, hc, t', ht', rfl⟩
      exact List.Forall₂.cons ⟨Int.ofNat_nonneg c, Int.lt_toNat.1 hc⟩ ((ih t').1 ht')
    · intro h
      rw [List.forall₂_cons_left_iff] at h
      obtain ⟨x, t', ⟨hx0, hxb⟩, hrest, rfl⟩ := h
      refine ⟨x.toNat, ?_, t', (ih t').2 hrest, ?_⟩
      · exact Int.lt_toNat.2 (by rwa [Int.toNat_of_nonneg hx0])
      · rw [Int.ofNat_eq_natCast, Int.toNat_of_nonneg hx0]

/-- The Cartesian product is emitted in strictly increasing lexicographic
(outermost-major) order. -/
lemma lexProduct_pairwise :
    ∀ bounds : List Int,
      (lexProduct bounds).Pairwise (fun a b => lexLt a b = true) := by
  intro bounds
  induction bounds with
  | nil => simp [lexProduct]
  | cons b rest ih =>
    rw [lexProduct]
    rw [List.pairwise_flatMap]
    constructor
    · intro c _
      rw [List.pairwise_map]
      refine ih.imp ?_
      intro t₁ t₂ h
      simp [lexLt, h]
    · refine (List.pairwise_lt_range b.toNat).imp ?_
      intro c₁ c₂ hlt x hx y hy
      simp only [List.mem_map] at hx hy
      obtain ⟨t₁, _, rfl⟩ := hx
      obtain ⟨t₂, _, rfl⟩ := hy
      have : (Int.ofNat c₁) < Int.ofNat c₂ := Int.ofNat_lt.2 hlt
      simp only [lexLt, Bool.or_eq_true, decide_eq_true_eq]
      exact Or.inl this

/-- If every level from `i` on is a probe and some level's condition bit is
clear, no iterator-value suffix survives: the body is never invoked. -/
lemma expected_all_singleton (mask cond_mask : Nat) :
    ∀ (bounds : List Int) (i ci : Nat),
      (∀ j, j < bounds.length → mask.testBit (i + j) = true) →
      (∃ j, j < bounds.length ∧ cond_mask.testBit (ci + j) = false) →
      expected_invocations mask cond_mask i ci bounds = [] := by
  intro bounds
  induction bounds with
  | nil =>
    intro i ci _ hcond
    obtain ⟨j, hj, _⟩ := hcond
    simp at hj
  | cons b rest ih =>
    intro i ci hmask hcond
    have hm : mask.testBit i = true := by simpa using hmask 0 (by simp)
    rw [expected_invocations, if_pos hm]
    by_cases hc : cond_mask.testBit ci
    · rw [if_pos hc]
      have : expected_invocations mask cond_mask (i + 1) (ci + 1) rest = [] := by
        apply ih
        · intro j hj
          have := hmask (j + 1) (by simpa using Nat.succ_lt_succ hj)
          simpa [Nat.add_assoc, Nat.add_comm 1 j] using this
        · obtain ⟨j, hj, hbit⟩ := hcond
          cases j with
          | zero => rw [Nat.add_zero] at hbit; rw [hbit] at hc; simp at hc
          | succ j' =>
            refine ⟨j', by simpa using Nat.lt_of_succ_lt_succ hj, ?_⟩
            have : ci + (j' + 1) = ci + 1 + j' := by omega
            rwa [this] at hbit
      rw [this]
      simp
    · rw [if_neg hc]

/-- Running the sweep executes the longest all-verifying prefix and aborts at the
first failing combination. -/
lemma run_sweep_eq (verifies : Nat × Nat → Bool) :
    ∀ l : List (Nat × Nat),
      run_sweep verifies l = (l.takeWhile verifies, (l.dropWhile verifies).head?) := by
  intro l
  induction l with
  | nil => rfl
  | cons p rest ih =>
    rw [run_sweep]
    by_cases hp : verifies p
    · rw [if_pos hp, ih, List.takeWhile_cons_of_pos hp, List.dropWhile_cons_of_pos hp]
    · rw [if_neg hp, List.takeWhile_cons_of_neg (by simpa using hp),
        List.dropWhile_cons_of_neg (by simpa using hp)]
      rfl

/-- Membership in the sweep enumeration. -/
lemma sweep_pairs_mem (L : Nat) (mc : Nat × Nat) :
    mc ∈ sweep_pairs L ↔ mc.1 < 2 ^ L ∧ mc.2 < 2 ^ popcount mc.1 := by
  obtain ⟨m, c⟩ := mc
  simp only [sweep_pairs, List.mem_flatMap, List.mem_map, List.mem_range,
    Prod.mk.injEq]
  constructor
  · rintro ⟨a, ha, b, hb, rfl, rfl⟩
    exact ⟨ha, hb⟩
  · rintro ⟨hm, hc⟩
    exact ⟨m, hm, c, hc, rfl, rfl⟩

/-- The sweep enumeration visits no combination twice. -/
lemma sweep_pairs_nodup (L : Nat) : (sweep_pairs L).Nodup := by
  rw [sweep_pairs, List.nodup_flatMap]
  constructor
  · intro m _
    exact (List.nodup_range _).map (fun a b h => by simpa using h)
  · refine (List.pairwise_lt_range _).imp ?_
    intro m₁ m₂ hlt x hx₁ hx₂
    simp only [List.mem_map] at hx₁ hx₂
    obtain ⟨c₁, _, rfl⟩ := hx₁
    obtain ⟨c₂, _, h⟩ := hx₂
    have : m₂ = m₁ := congrArg Prod.fst h
    omega

/-- Summing an indicator over a range picks out the chosen index. -/
lemma sum_map_ite_eq (f : Nat → Nat) :
    ∀ n k : Nat, k < n →
      ((List.range n).map (fun m => if m = k then f m else 0)).sum = f k := by
  intro n
  induction n with
  | zero => intro k hk; omega
  | succ n ih =>
    intro k hk
    rw [List.range_succ, List.map_append, List.sum_append]
    by_cases h : k = n
    · subst h
      have hz : ((List.range k).map (fun m => if m = k then f m else 0)).sum = 0 := by
        apply List.sum_eq_zero
        intro x hx
        simp only [List.mem_map, List.mem_range] at hx
        obtain ⟨m, hm, rfl⟩ := hx
        rw [if_neg (Nat.ne_of_lt hm)]
      simp [hz]
    · have hk' : k < n := by omega
      have hz : ([n].map (fun m => if m = k then f m else 0)).sum = 0 := by
        simp only [List.map_cons, List.map_nil, List.sum_cons, List.sum_nil]
        rw [if_neg (by omega : ¬n = k)]
        omega
      rw [ih k hk', hz]
      omega

/-- Each mask below `2 ^ L` contributes exactly `2 ^ popcount mask`
combinations to the sweep. -/
lemma sweep_pairs_count_mask (L mask : Nat) (h : mask < 2 ^ L) :
    ((sweep_pairs L).filter (fun p => p.1 == mask)).length
      = 2 ^ popcount mask := by
  rw [sweep_pairs, List.filter_flatMap]
  rw [List.length_flatMap]
  have hterm : ∀ m, (((List.range (2 ^ popcount m)).map
        (fun cond_mask => (m, cond_mask))).filter (fun p => p.1 == mask)).length
      = if m = mask then 2 ^ popcount m else 0 := by
    intro m
    rw [List.filter_map]
    simp only [Function.comp_def]
    by_cases hm : m = mask
    · subst hm
      simp
    · simp [hm]
  calc ((List.range (2 ^ L)).map (fun m =>
          (((List.range (2 ^ popcount m)).map
            (fun cond_mask => (m, cond_mask))).filter (fun p => p.1 == mask)).length)).sum
      = ((List.range (2 ^ L)).map (fun m => if m = mask then 2 ^ popcount m else 0)).sum := by
        rw [List.map_congr_left (fun m _ => hterm m)]
    _ = 2 ^ popcount mask := sum_map_ite_eq (fun m => 2 ^ popcount m) (2 ^ L) mask h

/-- Total size of the sweep. -/
lemma sweep_pairs_length (L : Nat) :
    (sweep_pairs L).length
      = ((List.range (2 ^ L)).map (fun m => 2 ^ popcount m)).sum := by
  rw [sweep_pairs, List.length_flatMap]
  simp [Function.comp_def]

/-- The descriptor placed at position `j` of the generated sequence, with the
running start indices generalised: a probe built on the condition bit at the
running condition index plus the number of probe levels so far, or a scan on
the `j`-th configured bound. -/
lemma generate_descriptors_aux_getElem (mask cond_mask : Nat) :
    ∀ (bounds : List Int) (i0 ci0 j : Nat) (hj : j < bounds.length),
      (generate_descriptors_aux mask cond_mask i0 ci0 bounds)[j]? =
        some (if mask.testBit (i0 + j) then
                singleton_descriptor (i0 + j)
                  (cond_mask.testBit
                    (ci0 + (List.range j).countP (fun k => mask.testBit (i0 + k))))
              else
                upper_bound_descriptor (i0 + j) (bounds.get ⟨j, hj⟩)) := by
  intro bounds
  induction bounds with
  | nil => intro i0 ci0 j hj; simp at hj
  | cons b rest ih =>
    intro i0 ci0 j hj
    cases j with
    | zero =>
      rw [generate_descriptors_aux]
      by_cases hm : mask.testBit i0
      · rw [if_pos hm]
        simp [hm]
      · rw [if_neg hm]
        simp [hm]
    | succ j' =>
      have hj' : j' < rest.length := by simpa using Nat.lt_of_succ_lt_succ hj
      have hcount : ∀ start : Nat,
          (List.range (j' + 1)).countP (fun k => mask.testBit (start + k))
            = (if mask.testBit start then 1 else 0)
              + (List.range j').countP (fun k => mask.testBit (start + 1 + k)) := by
        intro start
        rw [List.range_succ_eq_map, List.countP_cons, List.countP_map]
        have : ∀ k, ((fun k => mask.testBit (start + k)) ∘ Nat.succ) k
            = (fun k => mask.testBit (start + 1 + k)) k := by
          intro k
          simp only [Function.comp_def]
          have : start + (k + 1) = start + 1 + k := by omega
          rw [this]
        rw [List.countP_congr (fun k _ => by rw [this k])]
        simp [Nat.add_comm]
      rw [generate_descriptors_aux]
      have harith : i0 + 1 + j' = i0 + (j' + 1) := by omega
      by_cases hm : mask.testBit i0
      · rw [if_pos hm, List.getElem?_cons_succ, ih (i0 + 1) (ci0 + 1) j' hj']
        rw [hcount i0, if_pos hm, harith, ← Nat.add_assoc ci0 1]
        rfl
      · rw [if_neg hm, List.getElem?_cons_succ, ih (i0 + 1) ci0 j' hj']
        rw [hcount i0, if_neg hm, harith, Nat.zero_add]
        rfl

/-- The head of `dropWhile` is the first element failing the predicate. -/
lemma dropWhile_head_false {α : Type} (p : α → Bool) :
    ∀ (l : List α) (q : α), (l.dropWhile p).head? = some q →
      p q = false ∧ q ∈ l := by
  intro l
  induction l with
  | nil => intro q hq; simp [List.dropWhile] at hq
  | cons x xs ih =>
    intro q hq
    by_cases hx : p x
    · rw [List.dropWhile_cons_of_pos hx] at hq
      obtain ⟨h1, h2⟩ := ih q hq
      exact ⟨h1, List.mem_cons_of_mem x h2⟩
    · rw [List.dropWhile_cons_of_neg (by simpa using hx)] at hq
      rw [List.head?_cons, Option.some.injEq] at hq
      subst hq
      exact ⟨by simpa using hx, List.mem_cons_self x xs⟩

/-- C1: for a descriptor sequence of only bounded scans (mask = 0) over any
bounds, the body is invoked exactly once per element of the Cartesian product
`[0,b_0) × ... × [0,b_(L-1))` — the invocation list is the full product, whose
length is the product of the bounds and whose members are exactly the
in-range tuples — in strictly increasing lexicographic (outermost-major)
order; in particular for the harness bounds `[5,3,9]` the product has
`5*3*9 = 135` tuples. -/
theorem c1_scan_full_cartesian_coverage (bounds : List Int) (cond_mask : Nat) :
    loop_test_invocations 0 cond_mask bounds
        = some ((lexProduct bounds).map (fun t => none :: t.map some))
    ∧ (lexProduct bounds).length = (bounds.map Int.toNat).prod
    ∧ (∀ t : List Int,
        t ∈ lexProduct bounds ↔ List.Forall₂ (fun b x => 0 ≤ x ∧ x < b) bounds t)
    ∧ (lexProduct bounds).Pairwise (fun a b => lexLt a b = true)
    ∧ (lexProduct [(5 : Int), 3, 9]).length = 135 := by
  refine ⟨?_, lexProduct_length bounds, lexProduct_mem bounds,
    lexProduct_pairwise bounds, by decide⟩
  rw [loop_test_invocations, generate_descriptors,
    codegen_generate_aux 0 cond_mask bounds 0 0 [none] rfl rfl,
    expected_invocations_mask_zero cond_mask bounds 0 0]
  simp [List.map_map, Function.comp_def]

/-- C2: for a descriptor sequence of only probes (mask with all level bits
set), if any level's condition bit is clear — its probe evaluates to the
no-match sentinel — the body is invoked zero times, never partially. -/
theorem c2_all_probe_no_match_skips_body (bounds : List Int) (cond_mask : Nat)
    (h : ∃ j, j < bounds.length ∧ cond_mask.testBit j = false) :
    loop_test_invocations (2 ^ bounds.length - 1) cond_mask bounds = some [] := by
  rw [loop_test_invocations, generate_descriptors,
    codegen_generate_aux _ cond_mask bounds 0 0 [none] rfl rfl]
  rw [expected_all_singleton _ cond_mask bounds 0 0 ?hmask ?hcond]
  · rfl
  case hmask =>
    intro j hj
    simp only [Nat.zero_add, Nat.testBit_two_pow_sub_one]
    exact decide_eq_true hj
  case hcond =>
    simpa using h

/-- C2 witness: with the harness bounds and every probe configured no-match
(`cond_mask = 0`), the body never runs. -/
theorem c2_all_probe_no_match_skips_body_witness :
    loop_test_invocations (2 ^ [(5 : Int), 3, 9].length - 1) 0 [5, 3, 9]
      = some [] :=
  c2_all_probe_no_match_skips_body [5, 3, 9] 0 ⟨0, by decide, by decide⟩

/-- C3: for any mix of scans and probes, the composition never aborts and the
body-invocation count is the product of the per-level multipliers (a scan
contributes its bound, a probe 1 when matched, 0 when not) — inner-level
exhaustion resumes the outer level instead of ending the nest.  In
particular, with bounds `[5,3,9]` and level 0 a matched probe the body runs
`3*9 = 27` times, each time with iterator value 99 at level 0, and 0 times
when that probe is no-match. -/
theorem c3_mixed_invocation_count (mask cond_mask : Nat) (bounds : List Int) :
    (∃ l, loop_test_invocations mask cond_mask bounds = some l ∧
        l.length = (level_multipliers mask cond_mask bounds).prod)
    ∧ ((loop_test_invocations 1 1 [5, 3, 9]).getD []).length = 27
    ∧ (∀ v ∈ (loop_test_invocations 1 1 [5, 3, 9]).getD [],
        v[1]? = some (some 99))
    ∧ loop_test_invocations 1 0 [5, 3, 9] = some [] := by
  refine ⟨⟨(expected_invocations mask cond_mask 0 0 bounds).map
      (fun t => [none] ++ t),
    codegen_generate_aux mask cond_mask bounds 0 0 [none] rfl rfl, ?_⟩,
    by decide, by decide, by decide⟩
  rw [List.length_map, expected_invocations_length mask cond_mask bounds 0 0,
    level_multipliers]

/-- C4: on every body invocation over a descriptor sequence of length L the
iterator vector has exactly L + 1 entries, the leading one being the null
sentinel, and the harness body passes the remaining L values on after
dropping that slot. -/
theorem c4_iterator_vector_shape (mask cond_mask : Nat) (bounds : List Int)
    (l : List (List (Option Int)))
    (hl : loop_test_invocations mask cond_mask bounds = some l)
    (v : List (Option Int)) (hv : v ∈ l) :
    v.length = bounds.length + 1 ∧ v.head? = some none ∧
      (loop_test_body v).length = bounds.length := by
  rw [loop_test_invocations, generate_descriptors,
    codegen_generate_aux mask cond_mask bounds 0 0 [none] rfl rfl,
    Option.some.injEq] at hl
  subst hl
  simp only [List.mem_map] at hv
  obtain ⟨t, ht, rfl⟩ := hv
  have hlen := expected_invocations_mem_length mask cond_mask bounds 0 0 t ht
  refine ⟨by simp [hlen], by simp, ?_⟩
  simp [loop_test_body, hlen]

/-- C4 witness: one scan level with bound 1 invokes the body once with the
two-entry vector `[sentinel, 0]`; the body forwards the single value `0`. -/
theorem c4_iterator_vector_shape_witness :
    ([none, some 0] : List (Option Int)).length = [(1 : Int)].length + 1
    ∧ ([none, some 0] : List (Option Int)).head? = some none
    ∧ (loop_test_body [none, some 0]).length = [(1 : Int)].length :=
  c4_iterator_vector_shape 0 0 [1] [[none, some 0]] (by decide)
    [none, some 0] (by decide)

/-- C9: composing an empty descriptor sequence invokes the body exactly once,
directly, with the one-element sentinel iterator vector, and the composer
allocates no control-flow blocks of its own. -/
theorem c9_empty_descriptor_sequence (mask cond_mask : Nat) :
    loop_test_invocations mask cond_mask [] = some [[none]]
    ∧ codegen [] [none] = some [[none]]
    ∧ codegen_blocks_allocated [] = 0 :=
  ⟨rfl, rfl, rfl⟩

/-- C10: during composition every evaluator receives exactly the checked
shape — `i + 1` accumulated iterator values whose first slot is the null
sentinel — so no `CHECK_EQ(i + 1, v.size())` / `CHECK(!v.front())` assertion
in `generate_descriptors` ever fires: composition succeeds for every mask,
condition mask and bounds, and in particular across the whole harness
sweep. -/
theorem c10_evaluator_checks_never_fire (mask cond_mask : Nat)
    (bounds : List Int) :
    (loop_test_invocations mask cond_mask bounds).isSome = true
    ∧ ((sweep_pairs 3).all
        (fun p => (loop_test_invocations p.1 p.2 [5, 3, 9]).isSome)) = true := by
  refine ⟨?_, by decide⟩
  rw [loop_test_invocations, generate_descriptors,
    codegen_generate_aux mask cond_mask bounds 0 0 [none] rfl rfl]
  rfl

/-- C5: for any level `j` of any generated descriptor sequence and any
iterator context of the checked shape, a probe descriptor's evaluator returns
the fixed matched value `99` when that level's condition bit is set — and
composition then appends `99` as the level's sole iterator value — and the
reserved negative no-match sentinel `-1` when the bit is clear — and
composition then skips the level with zero inner invocations; a scan
descriptor's evaluator returns the configured upper bound for that level. -/
theorem c5_probe_and_scan_domains (mask cond_mask : Nat) (bounds : List Int)
    (j : Nat) (hj : j < bounds.length) (v : List (Option Int))
    (hv : v.length = j + 1) (hh : v.head? = some none) :
    ∃ d : JoinLoop,
      (generate_descriptors mask cond_mask bounds)[j]? = some d ∧
      (mask.testBit j = true →
        d.kind = JoinLoopKind.Singleton ∧
        d.iteration_domain_codegen v = some
          { upper_bound := 0
            slot_lookup_result :=
              if cond_mask.testBit (cond_index mask j) then 99 else -1 } ∧
        (cond_mask.testBit (cond_index mask j) = true →
          ∀ rest : List JoinLoop,
            codegen (d :: rest) v = codegen rest (v ++ [some 99])) ∧
        (cond_mask.testBit (cond_index mask j) = false →
          ∀ rest : List JoinLoop, codegen (d :: rest) v = some [])) ∧
      (mask.testBit j = false →
        d.kind = JoinLoopKind.UpperBound ∧
        d.iteration_domain_codegen v = some
          { upper_bound := bounds.get ⟨j, hj⟩, slot_lookup_result := 0 }) := by
  have hget := generate_descriptors_aux_getElem mask cond_mask bounds 0 0 j hj
  simp only [Nat.zero_add] at hget
  by_cases hm : mask.testBit j
  · refine ⟨singleton_descriptor j (cond_mask.testBit (cond_index mask j)),
      ?_, ?_, ?_⟩
    · rw [generate_descriptors, hget, if_pos hm]
      rfl
    · intro _
      refine ⟨rfl, ?_, ?_, ?_⟩
      · simp only [singleton_descriptor]
        rw [if_pos ⟨hv.symm, hh⟩]
      · intro hc rest
        rw [codegen_cons_singleton j _ rest v ⟨hv.symm, hh⟩, hc, if_pos rfl]
      · intro hc rest
        rw [codegen_cons_singleton j _ rest v ⟨hv.symm, hh⟩, hc,
          if_neg (by simp)]
    · intro hfalse
      rw [hm] at hfalse
      simp at hfalse
  · refine ⟨upper_bound_descriptor j (bounds.get ⟨j, hj⟩), ?_, ?_, ?_⟩
    · rw [generate_descriptors, hget, if_neg hm]
    · intro htrue
      exact absurd htrue hm
    · intro _
      refine ⟨rfl, ?_⟩
      simp only [upper_bound_descriptor]
      rw [if_pos ⟨hv.symm, hh⟩]

/-- C5 witness: with `mask = 1`, `cond_mask = 1`, the harness bounds and the
initial sentinel context, level 0 is a matched probe. -/
theorem c5_probe_and_scan_domains_witness :
    ∃ d : JoinLoop,
      (generate_descriptors 1 1 [(5 : Int), 3, 9])[0]? = some d ∧
      (Nat.testBit 1 0 = true →
        d.kind = JoinLoopKind.Singleton ∧
        d.iteration_domain_codegen [none] = some
          { upper_bound := 0
            slot_lookup_result :=
              if Nat.testBit 1 (cond_index 1 0) then 99 else -1 } ∧
        (Nat.testBit 1 (cond_index 1 0) = true →
          ∀ rest : List JoinLoop,
            codegen (d :: rest) [none] = codegen rest ([none] ++ [some 99])) ∧
        (Nat.testBit 1 (cond_index 1 0) = false →
          ∀ rest : List JoinLoop, codegen (d :: rest) [none] = some [])) ∧
      (Nat.testBit 1 0 = false →
        d.kind = JoinLoopKind.UpperBound ∧
        d.iteration_domain_codegen [none] = some
          { upper_bound := [(5 : Int), 3, 9].get ⟨0, by decide⟩
            slot_lookup_result := 0 }) :=
  c5_probe_and_scan_domains 1 1 [5, 3, 9] 0 (by decide) [none] (by decide)
    (by decide)

/-- C6: the harness enumerates exactly the pairs `(mask, cond_mask)` with
`mask < 2^L` and `cond_mask < 2^popcount(mask)`: each pair exactly once (one
fresh function per pair), each mask contributing exactly `2^popcount(mask)`
condition variants, for a total of `2^L` structural variants' worth of
combinations. -/
theorem c6_sweep_enumeration (L : Nat) :
    (sweep_pairs L).Nodup
    ∧ (∀ mc : Nat × Nat,
        mc ∈ sweep_pairs L ↔ mc.1 < 2 ^ L ∧ mc.2 < 2 ^ popcount mc.1)
    ∧ (∀ mask, mask < 2 ^ L →
        ((sweep_pairs L).filter (fun p => p.1 == mask)).length
          = 2 ^ popcount mask)
    ∧ (sweep_pairs L).length
        = ((List.range (2 ^ L)).map (fun m => 2 ^ popcount m)).sum :=
  ⟨sweep_pairs_nodup L, sweep_pairs_mem L,
    fun mask h => sweep_pairs_count_mask L mask h, sweep_pairs_length L⟩

/-- C7 counterexample: the claim that a verification failure is fatal only
for its own combination and the rest of the sweep continues is false.  With a
verifier oracle failing the very first combination `(0, 0)`, zero
combinations execute and the process aborts at `(0, 0)`, although the later
combination `(1, 0)` is part of the sweep and verifies fine. -/
theorem c7_counterexample_fatal_stops_sweep :
    (run_sweep (fun p => !(p == (0, 0))) (sweep_pairs 3)).1 = []
    ∧ (run_sweep (fun p => !(p == (0, 0))) (sweep_pairs 3)).2 = some (0, 0)
    ∧ (1, 0) ∈ sweep_pairs 3
    ∧ (!(((1, 0) : Nat × Nat) == (0, 0))) = true := by
  refine ⟨by decide, by decide, by decide, by decide⟩

/-- C7 (amended): IR verification of the composed function runs before
native compilation of that combination — the compile and execute stages can
be reached only after a passing verification — but a verification failure is
fatal to the whole process (`LOG(FATAL)` after dumping the function and the
verifier diagnostic), not just to that combination: exactly the leading
all-verifying prefix of the sweep executes, and the aborting combination is
the first one the verifier rejects. -/
theorem c7_amended_verify_before_compile_is_process_fatal
    (verifies : Nat × Nat → Bool) (L : Nat) :
    (∀ ok : Bool, HarnessStep.NativeCompile ∈ iteration_steps ok → ok = true)
    ∧ (∀ ok : Bool,
        (iteration_steps ok).indexOf HarnessStep.VerifyIR
          < (iteration_steps ok).indexOf HarnessStep.NativeCompile)
    ∧ (run_sweep verifies (sweep_pairs L)).1
        = (sweep_pairs L).takeWhile verifies
    ∧ (∀ q, (run_sweep verifies (sweep_pairs L)).2 = some q →
        verifies q = false ∧ q ∈ sweep_pairs L) := by
  refine ⟨?_, ?_, ?_, ?_⟩
  · intro ok
    cases ok <;> decide
  · intro ok
    cases ok <;> decide
  · rw [run_sweep_eq]
  · intro q hq
    rw [run_sweep_eq] at hq
    exact dropWhile_head_false verifies (sweep_pairs L) q hq

/-- C8 counterexample: a captured-vs-reference mismatch is not surfaced by
the process at all.  With every verification passing the exit code is 0
regardless of the recorded output: the recorded output of the harness sweep
differs from an (arbitrary) empty reference sequence, yet the exit code is
still 0 and no diagnostic identifies any combination. -/
theorem c8_counterexample_mismatch_not_surfaced :
    sweep_exit_code (fun _ => true) 3 = some 0
    ∧ sweep_output [5, 3, 9] ≠ [] := by
  refine ⟨by decide, by decide⟩

/-- C8 (amended): the process exits 0 exactly when the whole sweep runs to
completion, i.e. every enumerated combination passes verification; a
verification failure produces no normal exit at all (a fatal `LOG(FATAL)`
abort whose diagnostic is the verifier message, without the failing
`(mask, cond_mask)` pair), and the captured output is never compared against
a reference inside the process, so a mismatch never affects the exit
status — the comparison happens externally on the printed tuples. -/
theorem c8_amended_exit_code (verifies : Nat × Nat → Bool) (L : Nat) :
    (sweep_exit_code verifies L = some 0
      ↔ ∀ p ∈ sweep_pairs L, verifies p = true)
    ∧ (∀ n, sweep_exit_code verifies L = some n → n = 0) := by
  have hiff : sweep_exit_code verifies L = some 0
      ↔ ∀ p ∈ sweep_pairs L, verifies p = true := by
    rw [sweep_exit_code, run_sweep_eq]
    by_cases h : ((sweep_pairs L).dropWhile verifies).head? = none
    · rw [if_pos h]
      rw [List.head?_eq_none_iff, List.dropWhile_eq_nil_iff] at h
      simp only [eq_self_iff_true, true_iff]
      exact h
    · rw [if_neg h]
      rw [List.head?_eq_none_iff] at h
      simp only [List.dropWhile_eq_nil_iff] at h
      constructor
      · intro hcontra
        exact absurd hcontra (by simp)
      · intro hall
        exact absurd hall h
  refine ⟨hiff, ?_⟩
  intro n hn
  rw [sweep_exit_code] at hn
  by_cases h : (run_sweep verifies (sweep_pairs L)).2 = none
  · rw [if_pos h] at hn
    exact (Option.some.inj hn).symm
  · rw [if_neg h] at hn
    exact absurd hn (by simp)
